import Mathlib

/-!
Shallow embedding of `gfi/populate.py` (the good-first-issue pipeline script).

The script reads a list of repository URLs from a TOML file, queries GitHub per
repository for open "good first issue" issues, accumulates qualifying records,
deduplicates tweets against a SQLite store, tweets new repositories, shuffles
the accumulated records and writes them to a JSON snapshot file.

External collaborators (the github3 client, the TwitterClient, the SQLiteDao,
numerize, datetime.isoformat, time.strftime, the random source) are passed in
as explicit function arguments; the control flow of `populate.py` itself is
translated statement by statement.
-/

namespace GFI

/-! ### URL parser: `GH_URL_PATTERN` and `parse_github_url`

`GH_URL_PATTERN = re.compile(r"[http://|https://]?github.com/(?P<owner>[\w\.-]+)/(?P<name>[\w\.-]+)/?")`

`[http://|https://]` is a character class: it matches ONE character drawn from
the set {h, t, p, s, :, /, |}; the `?` makes it optional.  The dot in
`github.com` is UNESCAPED, so it is the any-character metacharacter: the host
part of the pattern is `github`, then exactly one arbitrary character other
than a newline (no `re.DOTALL`), then `com/`.  `re.search` scans start
positions left to right; at each position the optional class character is
tried first (greedy `?`), then omitted.  Since `/` is not a word/dot/dash
character, `[\w\.-]+` has no useful backtracking: the owner group is the
maximal run of class characters after the `github(any)com/` segment, which
must be followed by `/` and a non-empty name run.  `\w` is modelled over
ASCII (letters, digits, underscore). -/

/-- Characters matched by `[\w\.-]` (ASCII model of `\w`, plus dot and dash). -/
def isWordDotDash (c : Char) : Bool :=
  c.isAlpha || c.isDigit || c == '_' || c == '.' || c == '-'

/-- The set of characters of the class `[http://|https://]`. -/
def isSchemeClassChar (c : Char) : Bool :=
  c == 'h' || c == 't' || c == 'p' || c == 's' || c == ':' || c == '/' || c == '|'

/-- The pattern characters `github` before the unescaped dot. -/
def ghPre : List Char := "github".toList

/-- The pattern characters `com/` after the unescaped dot. -/
def ghPost : List Char := "com/".toList

/-- Match a literal character list at the front; return the remainder. -/
def matchLit : List Char → List Char → Option (List Char)
  | [], l => some l
  | _ :: _, [] => none
  | c :: cs, x :: xs => if x == c then matchLit cs xs else none

/-- Match the pattern segment `github.com/`.  The dot is unescaped in the
source regex, hence a metacharacter: it consumes exactly one arbitrary
character that is not a newline. -/
def matchGH (l : List Char) : Option (List Char) :=
  match matchLit ghPre l with
  | some (c :: r2) => if c = '\n' then none else matchLit ghPost r2
  | _ => none

/-- Match `(?P<owner>[\w\.-]+)/(?P<name>[\w\.-]+)/?` against `l`
(what follows the `github(any)com/` segment), returning the two groups.  Since
`/` is not a `[\w\.-]` character the greedy `+` runs never backtrack: the
owner group is the maximal class run, which must be followed by `/` and a
non-empty name run (the trailing `/?` never affects the groups). -/
def matchTail (l : List Char) : Option (List Char × List Char) :=
  if (l.takeWhile isWordDotDash).isEmpty then none
  else if (l.dropWhile isWordDotDash).head? = some '/' then
    if (((l.dropWhile isWordDotDash).tail).takeWhile isWordDotDash).isEmpty then none
    else some (l.takeWhile isWordDotDash,
               ((l.dropWhile isWordDotDash).tail).takeWhile isWordDotDash)
  else none

/-- The pattern anchored at the current position with the optional scheme
class character present (tried first: `?` is greedy). -/
def matchAtPrefixed : List Char → Option (List Char × List Char)
  | [] => none
  | c :: rest =>
    if isSchemeClassChar c then (matchGH rest).bind matchTail else none

/-- The whole pattern anchored at the current position: the scheme class
character consumed if that succeeds, otherwise omitted. -/
def matchAt (l : List Char) : Option (List Char × List Char) :=
  match matchAtPrefixed l with
  | some r => some r
  | none => (matchGH l).bind matchTail

/-- `re.search`: scan start positions left to right. -/
def searchGH : List Char → Option (List Char × List Char)
  | [] => none
  | l@(_ :: rest) =>
    match matchAt l with
    | some r => some r
    | none => searchGH rest

/-- `parse_github_url(url)`: `GH_URL_PATTERN.search(url)`, returning
`match.groupdict()` (owner, name) on a match and the empty dict (`none`)
otherwise. -/
def parse_github_url (url : String) : Option (String × String) :=
  (searchGH url.data).map (fun p => (String.mk p.1, String.mk p.2))

/-! ### Module-level constants of `populate.py` -/

def GOOD_FIRST_ISSUE : String := "good first issue"
def ISSUE_LABELS : List String := [GOOD_FIRST_ISSUE]
def ISSUE_STATE : String := "open"
def ISSUE_SORT : String := "created"
def ISSUE_SORT_DIRECTION : String := "desc"
def ISSUE_LIMIT : Nat := 10

/-! ### Data model -/

/-- An issue as returned by the github3 client.  `created_at` is an abstract
time key (the `datetime` value); its ISO-8601 rendering is produced by the
collaborator function `isoformat`. -/
structure Issue where
  title : String
  html_url : String
  number : Nat
  created_at : Nat
  deriving DecidableEq, Repr

/-- Repository metadata as returned by `client.repository(owner, name)`. -/
structure RepoMeta where
  language : Option String
  html_url : String
  stargazers_count : Nat
  last_modified : Option String
  id : Nat
  description : Option String
  full_name : String
  deriving DecidableEq, Repr

/-- One element of the `issues` list stored inside a repository record. -/
structure IssueRecord where
  title : String
  url : String
  number : Nat
  created_at : String
  deriving DecidableEq, Repr

/-- The `info` dict built by `get_repository_info` (a RepositoryRecord). -/
structure RepoInfo where
  name : String
  owner : String
  language : Option String
  url : String
  stars : Nat
  stars_display : String
  last_modified : Option String
  id : String
  description : Option String
  repo_display_name : String
  objectID : String
  issues : List IssueRecord
  deriving DecidableEq, Repr

/-- The parameters `populate.py` passes to `repository.issues(...)`. -/
structure IssueQuery where
  labels : List String
  state : String
  number : Nat
  sort : String
  direction : String
  deriving DecidableEq, Repr

/-- The fixed query sent for good first issues:
`labels=ISSUE_LABELS, state=ISSUE_STATE, number=ISSUE_LIMIT, sort=ISSUE_SORT,
direction=ISSUE_SORT_DIRECTION`. -/
def gfiQuery : IssueQuery :=
  { labels := ISSUE_LABELS
    state := ISSUE_STATE
    number := ISSUE_LIMIT
    sort := ISSUE_SORT
    direction := ISSUE_SORT_DIRECTION }

/-- Result of `client.repository(owner, name)`: metadata, or the
`exceptions.NotFoundError` case. -/
inductive RepoLookup where
  | notFound
  | found (meta : RepoMeta)
  deriving DecidableEq, Repr

/-- The exceptions that can escape a pipeline step, plus the fatal startup
errors of `__main__`.  `.error e` means the Python process dies with an
uncaught exception: no snapshot is written. -/
inductive PipelineError where
  | configMissing      -- RuntimeError("No config data file found. Exiting.")
  | storeInitFailed    -- I/O failure inside prepare_tweets_db()
  | assertionNoToken   -- AssertionError: GITHUB_ACCESS_TOKEN not in env
  | repoNotFound       -- RepoNotFoundException
  deriving DecidableEq, Repr

/-- The external collaborators consulted by `get_repository_info`. -/
structure GetRepoDeps where
  /-- `getenv('GITHUB_ACCESS_TOKEN')`. -/
  githubToken : Option String
  /-- `client.repository(owner, name)`. -/
  repository : String → String → RepoLookup
  /-- `repository.issues(labels, state, number, sort, direction)` for the
  repository identified by (owner, name). -/
  issues : String → String → IssueQuery → List Issue
  /-- `numerize.numerize` applied to the star count. -/
  numerize : Nat → String
  /-- `datetime.isoformat()` on an issue creation time. -/
  isoformat : Nat → String

/-- The dict appended for one issue inside `get_repository_info`. -/
def issueRecordOf (isoformat : Nat → String) (is : Issue) : IssueRecord :=
  { title := is.title
    url := is.html_url
    number := is.number
    created_at := isoformat is.created_at }

/-- The `info` dict as populated by `get_repository_info` for a repository
with metadata `meta` whose good-first-issue query returned a non-empty list. -/
def repoRecordOf (deps : GetRepoDeps) (owner nm : String) (meta : RepoMeta) : RepoInfo :=
  { name := nm
    owner := owner
    language := meta.language
    url := meta.html_url
    stars := meta.stargazers_count
    stars_display := deps.numerize meta.stargazers_count
    last_modified := meta.last_modified
    id := toString meta.id
    description := meta.description
    repo_display_name := meta.full_name
    objectID := toString meta.id
    issues := (deps.issues owner nm gfiQuery).map (issueRecordOf deps.isoformat) }

/-- `get_repository_info(owner, name)` translated statement by statement:
assert the access token, look the repository up (`NotFoundError` becomes
`RepoNotFoundException`), fetch the good-first-issue list with the fixed
query, return `None` when it is empty and the populated info dict otherwise. -/
def get_repository_info (deps : GetRepoDeps) (owner nm : String) :
    Except PipelineError (Option RepoInfo) :=
  match deps.githubToken with
  | none => .error .assertionNoToken
  | some _ =>
    match deps.repository owner nm with
    | .notFound => .error .repoNotFound
    | .found meta =>
      if (deps.issues owner nm gfiQuery).isEmpty then .ok none
      else .ok (some (repoRecordOf deps owner nm meta))

/-! ### The `__main__` driver

`SQLiteDao` and `TwitterClient` live in repository modules outside `src/`;
their behaviour is modelled from the spec (sections 4.3, 6): the store is a
durable key/timestamp table, `is_repo_tweeted` is a pure lookup reflecting all
prior successful inserts, `insert_tweet` is an append-only insert, store
initialization may fail fatally; the poster exposes `get_repo_url` (a pure
string builder) and `tweet_repo` (success or a `TweetException`). -/

/-- Modelled from the spec: outcome of `twitter_client.tweet_repo` — success,
or the posting-specific `TweetException`. -/
inductive TweetOutcome where
  | success
  | failure
  deriving DecidableEq, Repr

/-- A row of the tweets table: (repo url key, timestamp). -/
abbrev TweetRow := String × String

/-- Modelled from the spec: `dao.is_repo_tweeted(key)` — a pure lookup that
holds exactly when some prior insert used this key. -/
def is_repo_tweeted (rows : List TweetRow) (key : String) : Bool :=
  rows.any (fun row => row.1 == key)

/-- The whole outside world consulted by one run of `__main__`. -/
structure Env where
  /-- `path.exists(REPO_DATA_FILE)`. -/
  configExists : Bool
  /-- `DATA["repositories"]` parsed from the TOML file. -/
  repositories : List String
  /-- Modelled from the spec: `prepare_tweets_db()` — either the durable rows
  already in the store, or a fatal initialization failure. -/
  storeInit : Except Unit (List TweetRow)
  /-- The collaborators of `get_repository_info`. -/
  deps : GetRepoDeps
  /-- Modelled from the spec: `twitter_client.get_repo_url(repo_dict)` as a
  pure function of (owner, name). -/
  repoUrl : String → String → String
  /-- Modelled from the spec: the outcome of `twitter_client.tweet_repo` for
  (owner, name). -/
  tweetOutcome : String → String → TweetOutcome
  /-- `time.strftime("%Y-%m-%d %H:%M:%S")` as observed while handling the
  URL at the given position in the list. -/
  timestamp : Nat → String
  /-- The `random` source driving `random.shuffle`: for loop index `i`,
  `_randbelow(i + 1)` is `rand i % (i + 1)`. -/
  rand : Nat → Nat

/-- Mutable state of the per-URL loop: the accumulated `REPOSITORIES` list,
the store rows (initial rows plus this run's inserts, append-only), and the
traces of attempted and successful tweets. -/
structure LoopState where
  repositories : List RepoInfo
  daoRows : List TweetRow
  tweetsAttempted : List String
  tweetsSucceeded : List String
  deriving DecidableEq, Repr

/-- The body of `for repository_url in DATA["repositories"]` for one URL at
position `idx`.  An `.error` is an exception escaping the loop. -/
def processUrl (env : Env) (idx : Nat) (st : LoopState) (url : String) :
    Except PipelineError LoopState :=
  match parse_github_url url with
  | none => .ok st
  | some (owner, nm) =>
    match get_repository_info env.deps owner nm with
    | .error e => .error e
    | .ok none => .ok st
    | .ok (some repo_details) =>
      let st1 := { st with repositories := st.repositories ++ [repo_details] }
      let repo_gfi_url := env.repoUrl owner nm
      if is_repo_tweeted st1.daoRows repo_gfi_url then .ok st1
      else
        let st2 := { st1 with
          tweetsAttempted := st1.tweetsAttempted ++ [repo_gfi_url] }
        match env.tweetOutcome owner nm with
        | .failure => .ok st2   -- TweetException: logged, no insert
        | .success =>
          .ok { st2 with
            daoRows := st2.daoRows ++ [(repo_gfi_url, env.timestamp idx)],
            tweetsSucceeded := st2.tweetsSucceeded ++ [repo_gfi_url] }

/-- The per-URL loop, threading the state; an uncaught exception aborts it. -/
def runLoop (env : Env) : Nat → LoopState → List String →
    Except PipelineError LoopState
  | _, st, [] => .ok st
  | idx, st, url :: rest =>
    match processUrl env idx st url with
    | .error e => .error e
    | .ok st2 => runLoop env (idx + 1) st2 rest

/-- Swap positions `i` and `j` of a list (`x[i], x[j] = x[j], x[i]`);
identity when an index is out of range. -/
def swapList (l : List α) (i j : Nat) : List α :=
  match l.get? i, l.get? j with
  | some a, some b => (l.set i b).set j a
  | _, _ => l

/-- The loop of `random.shuffle`: `for i in reversed(range(1, len(x)))`,
swap `x[i]` with `x[randbelow(i + 1)]`.  The argument is the current loop
index `i`; `0` means the loop is over. -/
def fisherYates (rand : Nat → Nat) : Nat → List α → List α
  | 0, x => x
  | i + 1, x => fisherYates rand i (swapList x (i + 1) (rand (i + 1) % (i + 2)))

/-- `random.shuffle(REPOSITORIES)` driven by the run's random source. -/
def shuffleRepos (rand : Nat → Nat) (x : List RepoInfo) : List RepoInfo :=
  fisherYates rand (x.length - 1) x

/-- What a completed run produced.  `snapshot` is the array written (in full,
`open(..., 'w')`) to `data/generated.json`; `accumulated` is the
`REPOSITORIES` list before the shuffle; `finalRows` the store contents. -/
structure RunResult where
  snapshot : List RepoInfo
  accumulated : List RepoInfo
  finalRows : List TweetRow
  tweetsAttempted : List String
  tweetsSucceeded : List String
  deriving Repr, DecidableEq

instance exceptDecEq {e a : Type} [DecidableEq e] [DecidableEq a] :
    DecidableEq (Except e a) := fun x y =>
  match x, y with
  | .error e1, .error e2 =>
    if h : e1 = e2 then isTrue (by rw [h]) else
      isFalse (by intro hc; injection hc with hc; exact h hc)
  | .ok v1, .ok v2 =>
    if h : v1 = v2 then isTrue (by rw [h]) else
      isFalse (by intro hc; injection hc with hc; exact h hc)
  | .error _, .ok _ => isFalse (by intro hc; cases hc)
  | .ok _, .error _ => isFalse (by intro hc; cases hc)

/-- The `__main__` block: config-file check, store initialization, the
per-URL loop, the shuffle, the snapshot write.  `.error` means the process
died with an uncaught exception before writing the snapshot. -/
def runPipeline (env : Env) : Except PipelineError RunResult :=
  if env.configExists then
    match env.storeInit with
    | .error _ => .error .storeInitFailed
    | .ok initRows =>
      match runLoop env 0 ⟨[], initRows, [], []⟩ env.repositories with
      | .error e => .error e
      | .ok st =>
        .ok { snapshot := shuffleRepos env.rand st.repositories
              accumulated := st.repositories
              finalRows := st.daoRows
              tweetsAttempted := st.tweetsAttempted
              tweetsSucceeded := st.tweetsSucceeded }
  else .error .configMissing

/-! ### Lemmas about the URL parser -/

theorem matchLit_append (lit : List Char) : ∀ rest, matchLit lit (lit ++ rest) = some rest := by
  induction lit with
  | nil => intro rest; rfl
  | cons c cs ih => intro rest; simp [matchLit, ih]

theorem matchLit_eq_some (lit : List Char) :
    ∀ l rest, matchLit lit l = some rest → l = lit ++ rest := by
  induction lit with
  | nil => intro l rest h; simpa [matchLit] using h
  | cons c cs ih =>
    intro l rest h
    cases l with
    | nil => simp [matchLit] at h
    | cons x xs =>
      by_cases hx : x == c
      · rw [List.cons_append, (eq_of_beq hx)]
        exact congrArg _ (ih xs rest (by simpa [matchLit, hx] using h))
      · simp [matchLit, hx] at h

theorem takeWhile_append_of (p : Char → Bool) :
    ∀ (a b : List Char), (∀ c ∈ a, p c = true) →
      (∀ c, b.head? = some c → p c = false) →
      (a ++ b).takeWhile p = a ∧ (a ++ b).dropWhile p = b := by
  intro a
  induction a with
  | nil =>
    intro b _ hb
    cases b with
    | nil => exact ⟨rfl, rfl⟩
    | cons x xs =>
      have hx : p x = false := hb x rfl
      exact ⟨by simp [List.takeWhile_cons, hx], by simp [List.dropWhile_cons, hx]⟩
  | cons c a ih =>
    intro b ha hb
    have hc : p c = true := ha c (by simp)
    have h2 := ih b (fun d hd => ha d (by simp [hd])) hb
    exact ⟨by simp [List.takeWhile_cons, hc, h2.1], by simp [List.dropWhile_cons, hc, h2.2]⟩

theorem matchTail_exact (own nm tail : List Char)
    (hown : own ≠ []) (hnm : nm ≠ [])
    (ho : ∀ c ∈ own, isWordDotDash c = true)
    (hn : ∀ c ∈ nm, isWordDotDash c = true)
    (ht : ∀ c, tail.head? = some c → isWordDotDash c = false) :
    matchTail (own ++ '/' :: (nm ++ tail)) = some (own, nm) := by
  have h1 := takeWhile_append_of isWordDotDash own ('/' :: (nm ++ tail)) ho
    (by intro c hc; cases hc; decide)
  have h2 := takeWhile_append_of isWordDotDash nm tail hn ht
  unfold matchTail
  rw [h1.1, h1.2]
  simp [hown, hnm, h2.1]

theorem matchTail_eq_some (l o m : List Char) (h : matchTail l = some (o, m)) :
    ∃ post, l = o ++ '/' :: (m ++ post) ∧ o ≠ [] ∧ m ≠ [] ∧
      (∀ c ∈ o, isWordDotDash c = true) ∧ (∀ c ∈ m, isWordDotDash c = true) := by
  unfold matchTail at h
  by_cases he : (l.takeWhile isWordDotDash).isEmpty
  · rw [if_pos he] at h; exact absurd h (by simp)
  · rw [if_neg he] at h
    cases hd : l.dropWhile isWordDotDash with
    | nil => rw [hd] at h; exact absurd h (by simp)
    | cons x r2 =>
      rw [hd] at h
      by_cases hx : x = '/'
      · subst hx
        rw [if_pos (by simp)] at h
        simp only [List.tail_cons] at h
        by_cases hm : (r2.takeWhile isWordDotDash).isEmpty
        · rw [if_pos hm] at h; exact absurd h (by simp)
        · rw [if_neg hm] at h
          simp only [Option.some.injEq, Prod.mk.injEq] at h
          obtain ⟨ho, hm2⟩ := h
          refine ⟨r2.dropWhile isWordDotDash, ?_, ?_, ?_, ?_, ?_⟩
          · conv_lhs => rw [← List.takeWhile_append_dropWhile isWordDotDash l]
            rw [ho, hd, ← hm2, List.takeWhile_append_dropWhile]
          · rw [← ho]; simpa using he
          · rw [← hm2]; simpa using hm
          · rw [← ho]; exact fun c hc => List.mem_takeWhile_imp hc
          · rw [← hm2]; exact fun c hc => List.mem_takeWhile_imp hc
      · rw [if_neg (by simp [hx])] at h; exact absurd h (by simp)

theorem matchGH_append (c : Char) (rest : List Char) (hc : c ≠ '\n') :
    matchGH (ghPre ++ c :: (ghPost ++ rest)) = some rest := by
  unfold matchGH
  rw [matchLit_append]
  show (if c = '\n' then none else matchLit ghPost (ghPost ++ rest)) = some rest
  rw [if_neg hc, matchLit_append]

theorem matchGH_eq_some (l r : List Char) (h : matchGH l = some r) :
    ∃ c, l = ghPre ++ c :: (ghPost ++ r) ∧ c ≠ '\n' := by
  unfold matchGH at h
  cases h1 : matchLit ghPre l with
  | none => rw [h1] at h; exact absurd h (by simp)
  | some r1 =>
    rw [h1] at h
    cases r1 with
    | nil => exact absurd h (by simp)
    | cons c r2 =>
      dsimp only at h
      by_cases hc : c = '\n'
      · rw [if_pos hc] at h; exact absurd h (by simp)
      · rw [if_neg hc] at h
        exact ⟨c, by rw [matchLit_eq_some ghPre l (c :: r2) h1,
          matchLit_eq_some ghPost r2 r h], hc⟩

/-- A qualifying occurrence of the pattern inside a character list: `github`,
one arbitrary non-newline character (the unescaped dot), `com/`, a non-empty
owner run, a slash, a non-empty name run, anywhere in the list. -/
def GHOcc (l : List Char) : Prop :=
  ∃ pre c own nm post,
    l = pre ++ ghPre ++ c :: (ghPost ++ (own ++ '/' :: (nm ++ post))) ∧ c ≠ '\n' ∧
    own ≠ [] ∧ nm ≠ [] ∧
    (∀ x ∈ own, isWordDotDash x = true) ∧ (∀ x ∈ nm, isWordDotDash x = true)

theorem matchAt_eq_some (l : List Char) (o m : List Char)
    (h : matchAt l = some (o, m)) :
    ∃ pre c post, (pre = [] ∨ ∃ s, pre = [s]) ∧
      l = pre ++ ghPre ++ c :: (ghPost ++ (o ++ '/' :: (m ++ post))) ∧ c ≠ '\n' ∧
      o ≠ [] ∧ m ≠ [] ∧
      (∀ x ∈ o, isWordDotDash x = true) ∧ (∀ x ∈ m, isWordDotDash x = true) := by
  unfold matchAt at h
  cases hfst : matchAtPrefixed l with
  | some v =>
    rw [hfst] at h
    simp only [Option.some.injEq] at h
    subst h
    cases l with
    | nil => exact absurd hfst (by simp [matchAtPrefixed])
    | cons s rest =>
      by_cases hs : isSchemeClassChar s
      · rw [matchAtPrefixed, if_pos hs] at hfst
        cases hgh : matchGH rest with
        | none => rw [hgh] at hfst; exact absurd hfst (by simp)
        | some r =>
          rw [hgh] at hfst
          simp only [Option.some_bind] at hfst
          obtain ⟨c, hrest, hc⟩ := matchGH_eq_some rest r hgh
          obtain ⟨post, hr, h1, h2, h3, h4⟩ := matchTail_eq_some r o m hfst
          refine ⟨[s], c, post, Or.inr ⟨s, rfl⟩, ?_, hc, h1, h2, h3, h4⟩
          rw [hrest, hr]
          simp
      · rw [matchAtPrefixed, if_neg hs] at hfst; exact absurd hfst (by simp)
  | none =>
    rw [hfst] at h
    simp only at h
    cases hgh : matchGH l with
    | none => rw [hgh] at h; exact absurd h (by simp)
    | some r =>
      rw [hgh] at h
      simp only [Option.some_bind] at h
      obtain ⟨c, hl, hc⟩ := matchGH_eq_some l r hgh
      obtain ⟨post, hr, h1, h2, h3, h4⟩ := matchTail_eq_some r o m h
      refine ⟨[], c, post, Or.inl rfl, ?_, hc, h1, h2, h3, h4⟩
      rw [hl, hr]
      simp

theorem matchTail_isSome_of (own nm post : List Char)
    (hown : own ≠ []) (hnm : nm ≠ [])
    (ho : ∀ x ∈ own, isWordDotDash x = true)
    (hn : ∀ x ∈ nm, isWordDotDash x = true) :
    (matchTail (own ++ '/' :: (nm ++ post))).isSome := by
  obtain ⟨n0, nrest, rfl⟩ := List.exists_cons_of_ne_nil hnm
  have h1 := takeWhile_append_of isWordDotDash own ('/' :: (n0 :: nrest ++ post)) ho
    (by intro c hc; cases hc; decide)
  have hn0 : isWordDotDash n0 = true := hn n0 (by simp)
  unfold matchTail
  rw [h1.1, h1.2]
  simp [hown, List.takeWhile_cons, hn0]

theorem matchAt_site (c : Char) (X : List Char) (hc : c ≠ '\n') :
    matchAt (ghPre ++ c :: (ghPost ++ X)) = matchTail X := by
  have hpre : matchAtPrefixed (ghPre ++ c :: (ghPost ++ X)) = none := by
    rw [show (ghPre ++ c :: (ghPost ++ X) : List Char) =
        'g' :: ("ithub".toList ++ c :: (ghPost ++ X)) from rfl]
    simp [matchAtPrefixed, isSchemeClassChar]
  unfold matchAt
  rw [hpre, matchGH_append c X hc]
  rfl

theorem matchAt_isSome_of (c : Char) (own nm post : List Char) (hc : c ≠ '\n')
    (hown : own ≠ []) (hnm : nm ≠ [])
    (ho : ∀ x ∈ own, isWordDotDash x = true)
    (hn : ∀ x ∈ nm, isWordDotDash x = true) :
    (matchAt (ghPre ++ c :: (ghPost ++ (own ++ '/' :: (nm ++ post))))).isSome := by
  rw [matchAt_site c _ hc]
  exact matchTail_isSome_of own nm post hown hnm ho hn

theorem searchGH_cons (x : Char) (rest : List Char) :
    searchGH (x :: rest) = match matchAt (x :: rest) with
      | some r => some r
      | none => searchGH rest := by
  simp [searchGH]

theorem searchGH_isSome_of_matchAt (l : List Char) (h : (matchAt l).isSome) :
    (searchGH l).isSome := by
  cases l with
  | nil => exact absurd h (by decide)
  | cons x rest =>
    rw [searchGH_cons]
    cases hm : matchAt (x :: rest) with
    | some v => simp
    | none => rw [hm] at h; exact absurd h (by simp)

theorem searchGH_isSome_of_occ :
    ∀ (pre l : List Char) (c : Char) (own nm post : List Char),
    l = pre ++ ghPre ++ c :: (ghPost ++ (own ++ '/' :: (nm ++ post))) → c ≠ '\n' →
    own ≠ [] → nm ≠ [] →
    (∀ x ∈ own, isWordDotDash x = true) → (∀ x ∈ nm, isWordDotDash x = true) →
    (searchGH l).isSome := by
  intro pre
  induction pre with
  | nil =>
    intro l c own nm post hl hc h1 h2 h3 h4
    subst hl
    apply searchGH_isSome_of_matchAt
    simp only [List.nil_append]
    exact matchAt_isSome_of c own nm post hc h1 h2 h3 h4
  | cons y pre ih =>
    intro l c own nm post hl hc h1 h2 h3 h4
    subst hl
    rw [show ((y :: pre) ++ ghPre ++ c ::
        (ghPost ++ (own ++ '/' :: (nm ++ post))) : List Char) =
      y :: (pre ++ ghPre ++ c :: (ghPost ++ (own ++ '/' :: (nm ++ post)))) by simp,
      searchGH_cons]
    have hr : (searchGH (pre ++ ghPre ++ c ::
        (ghPost ++ (own ++ '/' :: (nm ++ post))))).isSome :=
      ih _ c own nm post rfl hc h1 h2 h3 h4
    cases hm : matchAt (y :: (pre ++ ghPre ++ c ::
        (ghPost ++ (own ++ '/' :: (nm ++ post))))) with
    | some v => simp
    | none => simpa using hr

theorem searchGH_isSome_iff : ∀ l : List Char, (searchGH l).isSome ↔ GHOcc l := by
  intro l
  constructor
  · intro h
    induction l with
    | nil => exact absurd h (by decide)
    | cons x rest ih =>
      rw [searchGH_cons] at h
      cases hm : matchAt (x :: rest) with
      | some v =>
        obtain ⟨o, m⟩ := v
        obtain ⟨pre, c, post, -, hl, hc, h1, h2, h3, h4⟩ := matchAt_eq_some _ o m hm
        exact ⟨pre, c, o, m, post, hl, hc, h1, h2, h3, h4⟩
      | none =>
        rw [hm] at h
        simp only at h
        obtain ⟨pre, c, own, nm, post, hl, hc, h1, h2, h3, h4⟩ := ih h
        exact ⟨x :: pre, c, own, nm, post, by simp [hl], hc, h1, h2, h3, h4⟩
  · rintro ⟨pre, c, own, nm, post, hl, hc, h1, h2, h3, h4⟩
    exact searchGH_isSome_of_occ pre l c own nm post hl hc h1 h2 h3 h4

/-- Whether the list contains, anywhere, the site every match needs:
`github`, one non-newline character, `com/`. -/
def hasGHSite : List Char → Bool
  | [] => false
  | l@(_ :: rest) => (matchGH l).isSome || hasGHSite rest

theorem hasGHSite_cons (x : Char) (rest : List Char) :
    hasGHSite (x :: rest) = ((matchGH (x :: rest)).isSome || hasGHSite rest) := by
  simp [hasGHSite]

theorem hasGHSite_append_site : ∀ (pre : List Char) (c : Char) (post : List Char),
    c ≠ '\n' → hasGHSite (pre ++ ghPre ++ c :: (ghPost ++ post)) = true := by
  intro pre
  induction pre with
  | nil =>
    intro c post hc
    rw [List.nil_append,
      show (ghPre ++ c :: (ghPost ++ post) : List Char) =
        'g' :: ("ithub".toList ++ c :: (ghPost ++ post)) from rfl,
      hasGHSite_cons,
      show ('g' : Char) :: ("ithub".toList ++ c :: (ghPost ++ post)) =
        ghPre ++ c :: (ghPost ++ post) from rfl,
      matchGH_append c post hc]
    rfl
  | cons y pre ih =>
    intro c post hc
    rw [show ((y :: pre) ++ ghPre ++ c :: (ghPost ++ post) : List Char) =
      y :: (pre ++ ghPre ++ c :: (ghPost ++ post)) by simp,
      hasGHSite_cons, ih c post hc]
    simp

/-- `searchGH` can only succeed when the input contains `github`, one
non-newline character, `com/` somewhere. -/
theorem hasGHSite_of_searchGH (l : List Char) (h : (searchGH l).isSome) :
    hasGHSite l = true := by
  obtain ⟨pre, c, own, nm, post, hl, hc, -⟩ := (searchGH_isSome_iff l).mp h
  rw [hl]
  exact hasGHSite_append_site pre c _ hc

/-! ### Lemmas about `get_repository_info` -/

theorem get_repository_info_ok_none_iff (deps : GetRepoDeps) (o n tok : String)
    (htok : deps.githubToken = some tok) :
    get_repository_info deps o n = .ok none ↔
      (∃ meta, deps.repository o n = .found meta) ∧ deps.issues o n gfiQuery = [] := by
  unfold get_repository_info
  rw [htok]
  cases hrep : deps.repository o n with
  | notFound => simp
  | found meta =>
    dsimp only
    by_cases hempty : (deps.issues o n gfiQuery).isEmpty
    · rw [if_pos hempty]
      simp only [List.isEmpty_eq_true] at hempty
      simp [hempty]
    · rw [if_neg hempty]
      simp only [List.isEmpty_eq_true] at hempty
      simp [hempty]

theorem get_repository_info_ok_some_iff (deps : GetRepoDeps) (o n tok : String)
    (r : RepoInfo) (htok : deps.githubToken = some tok) :
    get_repository_info deps o n = .ok (some r) ↔
      ∃ meta, deps.repository o n = .found meta ∧
        deps.issues o n gfiQuery ≠ [] ∧ r = repoRecordOf deps o n meta := by
  unfold get_repository_info
  rw [htok]
  cases hrep : deps.repository o n with
  | notFound => simp
  | found meta =>
    dsimp only
    by_cases hempty : (deps.issues o n gfiQuery).isEmpty
    · rw [if_pos hempty]
      simp only [List.isEmpty_eq_true] at hempty
      simp [hempty]
    · rw [if_neg hempty]
      simp only [List.isEmpty_eq_true] at hempty
      constructor
      · intro h
        exact ⟨meta, rfl, hempty, by simpa using h.symm⟩
      · rintro ⟨meta2, hmeta, -, hr⟩
        cases hmeta
        simp [hr]

theorem get_repository_info_issues_ne_nil (deps : GetRepoDeps) (o n : String)
    (r : RepoInfo) (h : get_repository_info deps o n = .ok (some r)) :
    r.issues ≠ [] := by
  cases htok : deps.githubToken with
  | none =>
    have htk : get_repository_info deps o n = .error .assertionNoToken := by
      unfold get_repository_info; rw [htok]
    rw [htk] at h; exact absurd h (by simp)
  | some tok =>
    obtain ⟨meta, -, hne, hr⟩ := (get_repository_info_ok_some_iff deps o n tok r htok).mp h
    rw [hr]
    simpa [repoRecordOf] using hne

/-! ### Permutation of the Fisher-Yates shuffle -/

theorem get_cons_set_perm {α : Type} : ∀ (xs : List α) (k : Nat) (b x : α),
    xs.get? k = some b → (b :: xs.set k x).Perm (x :: xs) := by
  intro xs
  induction xs with
  | nil => intro k b x h; simp at h
  | cons y ys ih =>
    intro k b x h
    cases k with
    | zero =>
      simp only [List.get?_cons_zero, Option.some.injEq] at h
      subst h
      simpa using List.Perm.swap x y ys
    | succ k =>
      simp only [List.get?_cons_succ] at h
      exact ((List.Perm.swap y b (ys.set k x)).trans
        ((ih k b x h).cons y)).trans (List.Perm.swap x y ys)

theorem set_set_perm {α : Type} : ∀ (l : List α) (i j : Nat) (a b : α),
    l.get? i = some a → l.get? j = some b → ((l.set i b).set j a).Perm l := by
  intro l
  induction l with
  | nil => intro i j a b ha _; simp at ha
  | cons x xs ih =>
    intro i j a b ha hb
    cases i with
    | zero =>
      simp only [List.get?_cons_zero, Option.some.injEq] at ha
      subst ha
      cases j with
      | zero =>
        simp only [List.get?_cons_zero, Option.some.injEq] at hb
        subst hb
        simp
      | succ j =>
        simp only [List.get?_cons_succ] at hb
        simpa using get_cons_set_perm xs j b x hb
    | succ i =>
      simp only [List.get?_cons_succ] at ha
      cases j with
      | zero =>
        simp only [List.get?_cons_zero, Option.some.injEq] at hb
        subst hb
        simpa using get_cons_set_perm xs i a x ha
      | succ j =>
        simp only [List.get?_cons_succ] at hb
        simpa using (ih i j a b ha hb).cons x

theorem swapList_perm {α : Type} (l : List α) (i j : Nat) : (swapList l i j).Perm l := by
  unfold swapList
  cases ha : l.get? i with
  | none =>
    cases hb : l.get? j with
    | none => exact List.Perm.refl l
    | some b => exact List.Perm.refl l
  | some a =>
    cases hb : l.get? j with
    | none => exact List.Perm.refl l
    | some b => exact set_set_perm l i j a b ha hb

theorem fisherYates_perm {α : Type} (rand : Nat → Nat) :
    ∀ (n : Nat) (x : List α), (fisherYates rand n x).Perm x := by
  intro n
  induction n with
  | zero => intro x; exact List.Perm.refl x
  | succ i ih =>
    intro x
    exact (ih _).trans (swapList_perm x (i + 1) (rand (i + 1) % (i + 2)))

theorem shuffleRepos_perm (rand : Nat → Nat) (x : List RepoInfo) :
    (shuffleRepos rand x).Perm x :=
  fisherYates_perm rand (x.length - 1) x

/-! ### Step characterization of the per-URL loop body -/

theorem processUrl_skip_unparsed (env : Env) (idx : Nat) (st : LoopState) (url : String)
    (hp : parse_github_url url = none) : processUrl env idx st url = .ok st := by
  unfold processUrl; rw [hp]

theorem processUrl_error (env : Env) (idx : Nat) (st : LoopState) (url o n : String)
    (e : PipelineError) (hp : parse_github_url url = some (o, n))
    (hg : get_repository_info env.deps o n = .error e) :
    processUrl env idx st url = .error e := by
  unfold processUrl; rw [hp]; dsimp only; rw [hg]

theorem processUrl_skip_norecord (env : Env) (idx : Nat) (st : LoopState) (url o n : String)
    (hp : parse_github_url url = some (o, n))
    (hg : get_repository_info env.deps o n = .ok none) :
    processUrl env idx st url = .ok st := by
  unfold processUrl; rw [hp]; dsimp only; rw [hg]

theorem processUrl_tweeted (env : Env) (idx : Nat) (st : LoopState) (url o n : String)
    (d : RepoInfo) (hp : parse_github_url url = some (o, n))
    (hg : get_repository_info env.deps o n = .ok (some d))
    (ht : is_repo_tweeted st.daoRows (env.repoUrl o n) = true) :
    processUrl env idx st url = .ok { st with repositories := st.repositories ++ [d] } := by
  unfold processUrl; rw [hp]; dsimp only; rw [hg]; dsimp only; rw [if_pos ht]

theorem processUrl_fresh_failure (env : Env) (idx : Nat) (st : LoopState) (url o n : String)
    (d : RepoInfo) (hp : parse_github_url url = some (o, n))
    (hg : get_repository_info env.deps o n = .ok (some d))
    (ht : is_repo_tweeted st.daoRows (env.repoUrl o n) = false)
    (htw : env.tweetOutcome o n = .failure) :
    processUrl env idx st url = .ok { st with
      repositories := st.repositories ++ [d]
      tweetsAttempted := st.tweetsAttempted ++ [env.repoUrl o n] } := by
  unfold processUrl
  rw [hp]; dsimp only; rw [hg]; dsimp only
  rw [if_neg (by rw [ht]; exact Bool.false_ne_true)]
  rw [htw]

theorem processUrl_fresh_success (env : Env) (idx : Nat) (st : LoopState) (url o n : String)
    (d : RepoInfo) (hp : parse_github_url url = some (o, n))
    (hg : get_repository_info env.deps o n = .ok (some d))
    (ht : is_repo_tweeted st.daoRows (env.repoUrl o n) = false)
    (htw : env.tweetOutcome o n = .success) :
    processUrl env idx st url = .ok { st with
      repositories := st.repositories ++ [d]
      daoRows := st.daoRows ++ [(env.repoUrl o n, env.timestamp idx)]
      tweetsAttempted := st.tweetsAttempted ++ [env.repoUrl o n]
      tweetsSucceeded := st.tweetsSucceeded ++ [env.repoUrl o n] } := by
  unfold processUrl
  rw [hp]; dsimp only; rw [hg]; dsimp only
  rw [if_neg (by rw [ht]; exact Bool.false_ne_true)]
  rw [htw]

/-- Exhaustive shape of a successful loop step: the state is unchanged, or a
record is appended with the other fields updated in one of the three ways. -/
theorem processUrl_ok_cases (env : Env) (idx : Nat) (st : LoopState) (url : String)
    (st2 : LoopState) (h : processUrl env idx st url = .ok st2) :
    st2 = st ∨
    ∃ o n d, parse_github_url url = some (o, n) ∧
      get_repository_info env.deps o n = .ok (some d) ∧
      (st2 = { st with repositories := st.repositories ++ [d] } ∨
       st2 = { st with
                repositories := st.repositories ++ [d]
                tweetsAttempted := st.tweetsAttempted ++ [env.repoUrl o n] } ∨
       st2 = { st with
                repositories := st.repositories ++ [d]
                daoRows := st.daoRows ++ [(env.repoUrl o n, env.timestamp idx)]
                tweetsAttempted := st.tweetsAttempted ++ [env.repoUrl o n]
                tweetsSucceeded := st.tweetsSucceeded ++ [env.repoUrl o n] } ∧
         is_repo_tweeted st.daoRows (env.repoUrl o n) = false) := by
  cases hp : parse_github_url url with
  | none =>
    rw [processUrl_skip_unparsed env idx st url hp] at h
    exact Or.inl (by injection h with h; exact h.symm)
  | some pr =>
    obtain ⟨o, n⟩ := pr
    cases hg : get_repository_info env.deps o n with
    | error e => rw [processUrl_error env idx st url o n e hp hg] at h; cases h
    | ok od =>
      cases od with
      | none =>
        rw [processUrl_skip_norecord env idx st url o n hp hg] at h
        exact Or.inl (by injection h with h; exact h.symm)
      | some d =>
        refine Or.inr ⟨o, n, d, rfl, hg, ?_⟩
        cases ht : is_repo_tweeted st.daoRows (env.repoUrl o n) with
        | true =>
          rw [processUrl_tweeted env idx st url o n d hp hg ht] at h
          exact Or.inl (by injection h with h; exact h.symm)
        | false =>
          cases htw : env.tweetOutcome o n with
          | failure =>
            rw [processUrl_fresh_failure env idx st url o n d hp hg ht htw] at h
            exact Or.inr (Or.inl (by injection h with h; exact h.symm))
          | success =>
            rw [processUrl_fresh_success env idx st url o n d hp hg ht htw] at h
            exact Or.inr (Or.inr ⟨by injection h with h; exact h.symm, rfl⟩)

/-! ### Loop-level lemmas -/

theorem runLoop_nil (env : Env) (idx : Nat) (st : LoopState) :
    runLoop env idx st [] = .ok st := rfl

theorem runLoop_cons (env : Env) (idx : Nat) (st : LoopState) (url : String)
    (rest : List String) :
    runLoop env idx st (url :: rest) =
      match processUrl env idx st url with
      | .error e => .error e
      | .ok st2 => runLoop env (idx + 1) st2 rest := by
  simp [runLoop]

theorem runLoop_cons_ok (env : Env) (idx : Nat) (st : LoopState) (url : String)
    (rest : List String) (st2 : LoopState) (h : processUrl env idx st url = .ok st2) :
    runLoop env idx st (url :: rest) = runLoop env (idx + 1) st2 rest := by
  rw [runLoop_cons, h]

theorem runLoop_cons_error (env : Env) (idx : Nat) (st : LoopState) (url : String)
    (rest : List String) (e : PipelineError) (h : processUrl env idx st url = .error e) :
    runLoop env idx st (url :: rest) = .error e := by
  rw [runLoop_cons, h]

theorem runLoop_append (env : Env) : ∀ (l1 l2 : List String) (idx : Nat) (st : LoopState),
    runLoop env idx st (l1 ++ l2) =
      match runLoop env idx st l1 with
      | .error e => .error e
      | .ok st2 => runLoop env (idx + l1.length) st2 l2 := by
  intro l1
  induction l1 with
  | nil => intro l2 idx st; simp [runLoop_nil]
  | cons u l1 ih =>
    intro l2 idx st
    rw [List.cons_append, runLoop_cons, runLoop_cons]
    simp only [List.length_cons]
    cases processUrl env idx st u with
    | error e => rfl
    | ok st2 =>
      dsimp only
      rw [ih, Nat.add_assoc, Nat.add_comm 1 l1.length]

theorem processUrl_ok_grow (env : Env) (idx : Nat) (st : LoopState) (url : String)
    (st2 : LoopState) (h : processUrl env idx st url = .ok st2) :
    st.repositories <+: st2.repositories ∧ st.daoRows <+: st2.daoRows := by
  rcases processUrl_ok_cases env idx st url st2 h with h1 | ⟨o, n, d, -, -, h1 | h1 | ⟨h1, -⟩⟩
  · subst h1; exact ⟨List.prefix_rfl, List.prefix_rfl⟩
  · subst h1; exact ⟨List.prefix_append _ _, List.prefix_rfl⟩
  · subst h1; exact ⟨List.prefix_append _ _, List.prefix_rfl⟩
  · subst h1; exact ⟨List.prefix_append _ _, List.prefix_append _ _⟩

theorem runLoop_ok_grow (env : Env) : ∀ (l : List String) (idx : Nat) (st st2 : LoopState),
    runLoop env idx st l = .ok st2 →
    st.repositories <+: st2.repositories ∧ st.daoRows <+: st2.daoRows := by
  intro l
  induction l with
  | nil =>
    intro idx st st2 h
    rw [runLoop_nil] at h
    injection h with h
    subst h
    exact ⟨List.prefix_rfl, List.prefix_rfl⟩
  | cons u l ih =>
    intro idx st st2 h
    rw [runLoop_cons] at h
    cases hp : processUrl env idx st u with
    | error e => rw [hp] at h; cases h
    | ok stm =>
      rw [hp] at h
      obtain ⟨g1, g2⟩ := processUrl_ok_grow env idx st u stm hp
      obtain ⟨g3, g4⟩ := ih (idx + 1) stm st2 h
      exact ⟨g1.trans g3, g2.trans g4⟩

/-! ### Invariant: every accumulated record has a non-empty issues list -/

theorem processUrl_issues_ne_nil (env : Env) (idx : Nat) (st : LoopState) (url : String)
    (st2 : LoopState) (h : processUrl env idx st url = .ok st2)
    (hinv : ∀ r ∈ st.repositories, r.issues ≠ []) :
    ∀ r ∈ st2.repositories, r.issues ≠ [] := by
  rcases processUrl_ok_cases env idx st url st2 h with h1 | ⟨o, n, d, -, hg, h1 | h1 | ⟨h1, -⟩⟩ <;>
    subst h1 <;> intro r hr
  · exact hinv r hr
  all_goals
    rcases List.mem_append.mp hr with hr | hr
    · exact hinv r hr
    · rw [List.mem_singleton.mp hr]
      exact get_repository_info_issues_ne_nil env.deps o n d hg

theorem runLoop_issues_ne_nil (env : Env) : ∀ (l : List String) (idx : Nat) (st st2 : LoopState),
    runLoop env idx st l = .ok st2 →
    (∀ r ∈ st.repositories, r.issues ≠ []) → ∀ r ∈ st2.repositories, r.issues ≠ [] := by
  intro l
  induction l with
  | nil =>
    intro idx st st2 h hinv
    rw [runLoop_nil] at h
    injection h with h
    subst h
    exact hinv
  | cons u l ih =>
    intro idx st st2 h hinv
    rw [runLoop_cons] at h
    cases hp : processUrl env idx st u with
    | error e => rw [hp] at h; cases h
    | ok stm =>
      rw [hp] at h
      exact ih (idx + 1) stm st2 h (processUrl_issues_ne_nil env idx st u stm hp hinv)

/-! ### Invariant: at most one successful tweet per key -/

theorem is_repo_tweeted_append_left (rows rows2 : List TweetRow) (k : String)
    (h : is_repo_tweeted rows k = true) : is_repo_tweeted (rows ++ rows2) k = true := by
  unfold is_repo_tweeted at h ⊢
  rw [List.any_append, h, Bool.true_or]

theorem is_repo_tweeted_last (rows : List TweetRow) (k ts : String) :
    is_repo_tweeted (rows ++ [(k, ts)]) k = true := by
  simp [is_repo_tweeted, List.any_append]

/-- Keys already successfully tweeted this run are distinct and present in the
store rows. -/
def dedupInv (st : LoopState) : Prop :=
  st.tweetsSucceeded.Nodup ∧ ∀ k ∈ st.tweetsSucceeded, is_repo_tweeted st.daoRows k = true

theorem processUrl_dedupInv (env : Env) (idx : Nat) (st : LoopState) (url : String)
    (st2 : LoopState) (h : processUrl env idx st url = .ok st2) (hinv : dedupInv st) :
    dedupInv st2 := by
  rcases processUrl_ok_cases env idx st url st2 h with
    h1 | ⟨o, n, d, -, -, h1 | h1 | ⟨h1, hfresh⟩⟩
  · subst h1; exact hinv
  · subst h1; exact hinv
  · subst h1; exact hinv
  · subst h1
    have hnot : env.repoUrl o n ∉ st.tweetsSucceeded := by
      intro hmem
      rw [hinv.2 _ hmem] at hfresh
      cases hfresh
    constructor
    · refine List.nodup_append.mpr ⟨hinv.1, List.nodup_singleton _, ?_⟩
      intro a ha hb
      rw [List.mem_singleton.mp hb] at ha
      exact hnot ha
    · intro k hk
      rcases List.mem_append.mp hk with hk | hk
      · exact is_repo_tweeted_append_left _ _ k (hinv.2 k hk)
      · rw [List.mem_singleton.mp hk]
        exact is_repo_tweeted_last _ _ _

theorem runLoop_dedupInv (env : Env) : ∀ (l : List String) (idx : Nat) (st st2 : LoopState),
    runLoop env idx st l = .ok st2 → dedupInv st → dedupInv st2 := by
  intro l
  induction l with
  | nil =>
    intro idx st st2 h hinv
    rw [runLoop_nil] at h
    injection h with h
    subst h
    exact hinv
  | cons u l ih =>
    intro idx st st2 h hinv
    rw [runLoop_cons] at h
    cases hp : processUrl env idx st u with
    | error e => rw [hp] at h; cases h
    | ok stm =>
      rw [hp] at h
      exact ih (idx + 1) stm st2 h (processUrl_dedupInv env idx st u stm hp hinv)

/-! ### Unfolding the top-level driver -/

theorem runPipeline_ok_unfold (env : Env) (rows0 : List TweetRow)
    (hc : env.configExists = true) (hs : env.storeInit = .ok rows0) :
    runPipeline env =
      match runLoop env 0 ⟨[], rows0, [], []⟩ env.repositories with
      | .error e => .error e
      | .ok st => .ok { snapshot := shuffleRepos env.rand st.repositories
                        accumulated := st.repositories
                        finalRows := st.daoRows
                        tweetsAttempted := st.tweetsAttempted
                        tweetsSucceeded := st.tweetsSucceeded } := by
  unfold runPipeline
  rw [if_pos hc, hs]

theorem get_repository_info_noToken (deps : GetRepoDeps) (o n : String)
    (htok : deps.githubToken = none) :
    get_repository_info deps o n = .error .assertionNoToken := by
  unfold get_repository_info
  rw [htok]

theorem get_repository_info_notFound (deps : GetRepoDeps) (o n tok : String)
    (htok : deps.githubToken = some tok) (hrep : deps.repository o n = .notFound) :
    get_repository_info deps o n = .error .repoNotFound := by
  simp [get_repository_info, htok, hrep]

theorem get_repository_info_found (deps : GetRepoDeps) (o n tok : String) (meta : RepoMeta)
    (htok : deps.githubToken = some tok) (hrep : deps.repository o n = .found meta)
    (hne : deps.issues o n gfiQuery ≠ []) :
    get_repository_info deps o n = .ok (some (repoRecordOf deps o n meta)) := by
  simp [get_repository_info, htok, hrep, hne]

/-- Eliminate a successful full run into its parts: the startup checks passed,
the loop ran to completion, and the result fields are the loop state's, with
the snapshot the shuffle of the accumulated records. -/
theorem runPipeline_ok_elim (env : Env) (res : RunResult) (h : runPipeline env = .ok res) :
    ∃ rows0 st, env.configExists = true ∧ env.storeInit = .ok rows0 ∧
      runLoop env 0 ⟨[], rows0, [], []⟩ env.repositories = .ok st ∧
      res = { snapshot := shuffleRepos env.rand st.repositories
              accumulated := st.repositories
              finalRows := st.daoRows
              tweetsAttempted := st.tweetsAttempted
              tweetsSucceeded := st.tweetsSucceeded } := by
  by_cases hc : env.configExists
  · rw [runPipeline, if_pos hc] at h
    cases hs : env.storeInit with
    | error u => rw [hs] at h; exact absurd h (by simp)
    | ok rows0 =>
      rw [hs] at h
      dsimp only at h
      cases hloop : runLoop env 0 ⟨[], rows0, [], []⟩ env.repositories with
      | error e => rw [hloop] at h; exact absurd h (by simp)
      | ok st =>
        rw [hloop] at h
        simp only [Except.ok.injEq] at h
        exact ⟨rows0, st, hc, rfl, hloop, h.symm⟩
  · rw [runPipeline, if_neg hc] at h
    exact absurd h (by simp)

/-- A record present in the state after one loop step stays through the rest
of the loop and lands in the final snapshot (and in the accumulated list). -/
theorem record_in_snapshot (env : Env) (rows0 : List TweetRow) (st st2 : LoopState)
    (pre : List String) (url : String) (post : List String) (res : RunResult) (d : RepoInfo)
    (hc : env.configExists = true) (hs : env.storeInit = .ok rows0)
    (hrep : env.repositories = pre ++ url :: post)
    (hpre : runLoop env 0 ⟨[], rows0, [], []⟩ pre = .ok st)
    (hstep : processUrl env pre.length st url = .ok st2)
    (hd : d ∈ st2.repositories)
    (hrun : runPipeline env = .ok res) :
    d ∈ res.accumulated ∧ d ∈ res.snapshot := by
  obtain ⟨rows0b, stf, -, hsb, hloop, hres⟩ := runPipeline_ok_elim env res hrun
  rw [hs] at hsb
  injection hsb with hsb
  subst hsb
  rw [hrep, runLoop_append, hpre] at hloop
  simp only [Nat.zero_add] at hloop
  rw [runLoop_cons_ok env pre.length st url post st2 hstep] at hloop
  have hgrow := (runLoop_ok_grow env post (pre.length + 1) st2 stf hloop).1
  have hmem : d ∈ stf.repositories := hgrow.subset hd
  subst hres
  exact ⟨hmem, ((shuffleRepos_perm env.rand stf.repositories).mem_iff).mpr hmem⟩

/-! ### Concrete sample worlds used to instantiate the theorems -/

def sampleIssue1 : Issue :=
  { title := "Fix parser", html_url := "https://github.com/a/b/issues/1",
    number := 1, created_at := 200 }

def sampleIssue2 : Issue :=
  { title := "Add docs", html_url := "https://github.com/a/b/issues/2",
    number := 2, created_at := 100 }

def sampleMeta : RepoMeta :=
  { language := some "Python", html_url := "https://github.com/a/b",
    stargazers_count := 1500, last_modified := some "Mon, 01 Jan 2024 00:00:00 GMT",
    id := 42, description := some "demo", full_name := "a/b" }

/-- A tracker world: owner "missing" does not exist, owner "empty" has no
good first issues, every other owner has two. -/
def sampleDeps : GetRepoDeps :=
  { githubToken := some "token"
    repository := fun o _ => if o == "missing" then .notFound else .found sampleMeta
    issues := fun o _ _ => if o == "empty" then [] else [sampleIssue1, sampleIssue2]
    numerize := fun k => toString k
    isoformat := fun t => toString t }

def baseEnv : Env :=
  { configExists := true
    repositories := []
    storeInit := .ok []
    deps := sampleDeps
    repoUrl := fun o n => "https://github.com/" ++ o ++ "/" ++ n
    tweetOutcome := fun _ _ => .success
    timestamp := fun k => toString k
    rand := fun _ => 0 }

/-- The record the sample world produces for owner/name (a, b). -/
def sampleRecord : RepoInfo := repoRecordOf sampleDeps "a" "b" sampleMeta

/-! ### The claims -/

/-- C1 counterexample: a run whose first URL hits `RepoNotFoundException`
terminates with that error — the second, perfectly good URL is never
processed and no snapshot is written — contradicting the claim that the
driver catches every per-item error and skips to the next URL. -/
theorem C1_counterexample :
    runPipeline { baseEnv with
      repositories := ["https://github.com/missing/repo", "https://github.com/a/b"] } =
      .error .repoNotFound := by
  decide

/-- C1 amended: the `RepoNotFoundException` raised by `get_repository_info`
is NOT caught by the `__main__` loop (only `TweetException` is): as soon as
the loop reaches a parseable URL whose repository lookup reports not-found,
the whole run aborts with that error and no snapshot is written, regardless
of how many URLs remain. -/
theorem C1_amended (env : Env) (rows0 : List TweetRow) (st : LoopState)
    (pre : List String) (url : String) (post : List String) (o n tok : String)
    (hc : env.configExists = true) (hs : env.storeInit = .ok rows0)
    (hrep : env.repositories = pre ++ url :: post)
    (hpre : runLoop env 0 ⟨[], rows0, [], []⟩ pre = .ok st)
    (hp : parse_github_url url = some (o, n))
    (htok : env.deps.githubToken = some tok)
    (hnf : env.deps.repository o n = .notFound) :
    runPipeline env = .error .repoNotFound := by
  have hg : get_repository_info env.deps o n = .error .repoNotFound :=
    get_repository_info_notFound env.deps o n tok htok hnf
  have hstep : processUrl env pre.length st url = .error .repoNotFound :=
    processUrl_error env pre.length st url o n .repoNotFound hp hg
  rw [runPipeline, if_pos hc, hs]
  dsimp only
  rw [hrep, runLoop_append, hpre]
  dsimp only
  rw [Nat.zero_add, runLoop_cons_error env pre.length st url post .repoNotFound hstep]

theorem C1_amended_witness :
    runPipeline { baseEnv with
      repositories := ["https://github.com/missing/repo", "https://github.com/a/b"] } =
      .error .repoNotFound :=
  C1_amended
    { baseEnv with
      repositories := ["https://github.com/missing/repo", "https://github.com/a/b"] }
    [] ⟨[], [], [], []⟩ [] "https://github.com/missing/repo"
    ["https://github.com/a/b"] "missing" "repo" "token"
    (by decide) (by decide) (by decide) (by decide) (by decide) (by decide) (by decide)

/-- C2: a record is produced iff the good-first-issue list is non-empty —
`get_repository_info` yields `None` exactly when the repository exists but
the queried issue list is empty, every produced record carries a non-empty
issues list, and consequently every record in the written snapshot of any
successful run has a non-empty issues list. -/
theorem C2_included_iff_qualifying :
    (∀ (deps : GetRepoDeps) (o n tok : String), deps.githubToken = some tok →
      (get_repository_info deps o n = .ok none ↔
        (∃ meta, deps.repository o n = .found meta) ∧ deps.issues o n gfiQuery = [])) ∧
    (∀ (deps : GetRepoDeps) (o n : String) (r : RepoInfo),
      get_repository_info deps o n = .ok (some r) → r.issues ≠ []) ∧
    (∀ (env : Env) (res : RunResult), runPipeline env = .ok res →
      ∀ r ∈ res.snapshot, r.issues ≠ []) := by
  refine ⟨get_repository_info_ok_none_iff, get_repository_info_issues_ne_nil, ?_⟩
  intro env res h r hr
  obtain ⟨rows0, st, -, -, hloop, hres⟩ := runPipeline_ok_elim env res h
  subst hres
  have hmem : r ∈ st.repositories :=
    ((shuffleRepos_perm env.rand st.repositories).mem_iff).mp hr
  exact runLoop_issues_ne_nil env env.repositories 0 ⟨[], rows0, [], []⟩ st hloop
    (by intro r2 hr2; exact absurd hr2 (List.not_mem_nil r2)) r hmem

theorem C2_witness :
    get_repository_info sampleDeps "empty" "x" = .ok none ∧
    sampleRecord.issues ≠ [] ∧
    (∀ r ∈ [sampleRecord], r.issues ≠ []) := by
  refine ⟨?_, ?_, ?_⟩
  · exact (C2_included_iff_qualifying.1 sampleDeps "empty" "x" "token" (by decide)).mpr
      ⟨⟨sampleMeta, by decide⟩, by decide⟩
  · exact C2_included_iff_qualifying.2.1 sampleDeps "a" "b" sampleRecord
      (get_repository_info_found sampleDeps "a" "b" "token" sampleMeta
        (by decide) (by decide) (by decide))
  · intro r hr
    have hrun : runPipeline { baseEnv with repositories := ["https://github.com/a/b"] } =
        .ok { snapshot := [sampleRecord], accumulated := [sampleRecord], finalRows :=
                [("https://github.com/a/b", "0")],
              tweetsAttempted := ["https://github.com/a/b"],
              tweetsSucceeded := ["https://github.com/a/b"] } := by decide
    exact C2_included_iff_qualifying.2.2 _ _ hrun r (by simpa using hr)

/-- C3: when the announcement key of a qualifying repository is already in
the store, the loop step appends the record to `REPOSITORIES` but changes
neither the store rows nor the attempted-tweet trace (no post, no insert),
and the record still reaches the accumulated collection and the written
snapshot of the completed run. -/
theorem C3_announced_still_in_snapshot (env : Env) (rows0 : List TweetRow) (st : LoopState)
    (pre : List String) (url : String) (post : List String) (o n : String)
    (d : RepoInfo) (res : RunResult)
    (hc : env.configExists = true) (hs : env.storeInit = .ok rows0)
    (hrep : env.repositories = pre ++ url :: post)
    (hpre : runLoop env 0 ⟨[], rows0, [], []⟩ pre = .ok st)
    (hp : parse_github_url url = some (o, n))
    (hg : get_repository_info env.deps o n = .ok (some d))
    (ht : is_repo_tweeted st.daoRows (env.repoUrl o n) = true)
    (hrun : runPipeline env = .ok res) :
    ∃ st2, processUrl env pre.length st url = .ok st2 ∧
      st2.tweetsAttempted = st.tweetsAttempted ∧
      st2.daoRows = st.daoRows ∧
      st2.repositories = st.repositories ++ [d] ∧
      d ∈ res.accumulated ∧ d ∈ res.snapshot := by
  have hstep := processUrl_tweeted env pre.length st url o n d hp hg ht
  obtain ⟨h1, h2⟩ := record_in_snapshot env rows0 st _ pre url post res d
    hc hs hrep hpre hstep (by simp) hrun
  exact ⟨_, hstep, rfl, rfl, rfl, h1, h2⟩

theorem C3_witness :
    ∃ st2, processUrl
        { baseEnv with repositories := ["https://github.com/a/b"],
                       storeInit := .ok [("https://github.com/a/b", "2020-01-01 00:00:00")] }
        0 ⟨[], [("https://github.com/a/b", "2020-01-01 00:00:00")], [], []⟩
        "https://github.com/a/b" = .ok st2 ∧
      st2.tweetsAttempted = [] ∧
      st2.daoRows = [("https://github.com/a/b", "2020-01-01 00:00:00")] ∧
      st2.repositories = [] ++ [sampleRecord] ∧
      sampleRecord ∈ [sampleRecord] ∧ sampleRecord ∈ [sampleRecord] :=
  C3_announced_still_in_snapshot
    { baseEnv with repositories := ["https://github.com/a/b"],
                   storeInit := .ok [("https://github.com/a/b", "2020-01-01 00:00:00")] }
    [("https://github.com/a/b", "2020-01-01 00:00:00")]
    ⟨[], [("https://github.com/a/b", "2020-01-01 00:00:00")], [], []⟩
    [] "https://github.com/a/b" [] "a" "b" sampleRecord
    { snapshot := [sampleRecord], accumulated := [sampleRecord],
      finalRows := [("https://github.com/a/b", "2020-01-01 00:00:00")],
      tweetsAttempted := [], tweetsSucceeded := [] }
    (by decide) (by decide) (by decide) (by decide) (by decide) (by decide)
    (by decide) (by decide)

/-- C4: for a qualifying repository whose key is not yet in the store, a
post is attempted; on `TweetException` the error is swallowed, no row is
inserted, the record stays accumulated (and reaches the snapshot of a
completed run) and the loop proceeds to the next URL; on success exactly one
row (key, current timestamp) is inserted. -/
theorem C4_insert_only_after_post (env : Env) (rows0 : List TweetRow) (st : LoopState)
    (pre : List String) (url : String) (post : List String) (o n : String)
    (d : RepoInfo) (res : RunResult)
    (hc : env.configExists = true) (hs : env.storeInit = .ok rows0)
    (hrep : env.repositories = pre ++ url :: post)
    (hpre : runLoop env 0 ⟨[], rows0, [], []⟩ pre = .ok st)
    (hp : parse_github_url url = some (o, n))
    (hg : get_repository_info env.deps o n = .ok (some d))
    (hfr : is_repo_tweeted st.daoRows (env.repoUrl o n) = false) :
    (env.tweetOutcome o n = .failure →
      ∃ st2, processUrl env pre.length st url = .ok st2 ∧
        st2.daoRows = st.daoRows ∧
        st2.repositories = st.repositories ++ [d] ∧
        st2.tweetsAttempted = st.tweetsAttempted ++ [env.repoUrl o n] ∧
        st2.tweetsSucceeded = st.tweetsSucceeded ∧
        runLoop env pre.length st (url :: post) = runLoop env (pre.length + 1) st2 post ∧
        (runPipeline env = .ok res → d ∈ res.snapshot)) ∧
    (env.tweetOutcome o n = .success →
      ∃ st2, processUrl env pre.length st url = .ok st2 ∧
        st2.daoRows = st.daoRows ++ [(env.repoUrl o n, env.timestamp pre.length)] ∧
        st2.repositories = st.repositories ++ [d] ∧
        st2.tweetsAttempted = st.tweetsAttempted ++ [env.repoUrl o n] ∧
        st2.tweetsSucceeded = st.tweetsSucceeded ++ [env.repoUrl o n]) := by
  constructor
  · intro htw
    have hstep := processUrl_fresh_failure env pre.length st url o n d hp hg hfr htw
    refine ⟨_, hstep, rfl, rfl, rfl, rfl,
      runLoop_cons_ok env pre.length st url post _ hstep, ?_⟩
    intro hrun
    exact (record_in_snapshot env rows0 st _ pre url post res d
      hc hs hrep hpre hstep (by simp) hrun).2
  · intro htw
    have hstep := processUrl_fresh_success env pre.length st url o n d hp hg hfr htw
    exact ⟨_, hstep, rfl, rfl, rfl, rfl⟩

theorem C4_witness :
    (∃ st2, processUrl
        { baseEnv with repositories := ["https://github.com/a/b"],
                       tweetOutcome := fun _ _ => .failure }
        0 ⟨[], [], [], []⟩ "https://github.com/a/b" = .ok st2 ∧
      st2.daoRows = [] ∧
      st2.repositories = [] ++ [sampleRecord] ∧
      st2.tweetsAttempted = [] ++ ["https://github.com/a/b"] ∧
      st2.tweetsSucceeded = [] ∧
      runLoop { baseEnv with repositories := ["https://github.com/a/b"],
                             tweetOutcome := fun _ _ => .failure }
        0 ⟨[], [], [], []⟩ ["https://github.com/a/b"] =
        runLoop { baseEnv with repositories := ["https://github.com/a/b"],
                               tweetOutcome := fun _ _ => .failure }
          1 st2 [] ∧
      (runPipeline { baseEnv with repositories := ["https://github.com/a/b"],
                                  tweetOutcome := fun _ _ => .failure } =
          .ok { snapshot := [sampleRecord], accumulated := [sampleRecord],
                finalRows := [], tweetsAttempted := ["https://github.com/a/b"],
                tweetsSucceeded := [] } →
        sampleRecord ∈ ({ snapshot := [sampleRecord], accumulated := [sampleRecord],
                          finalRows := [], tweetsAttempted := ["https://github.com/a/b"],
                          tweetsSucceeded := [] } : RunResult).snapshot)) ∧
    (∃ st2, processUrl { baseEnv with repositories := ["https://github.com/a/b"] }
        0 ⟨[], [], [], []⟩ "https://github.com/a/b" = .ok st2 ∧
      st2.daoRows = [] ++ [("https://github.com/a/b", "0")] ∧
      st2.repositories = [] ++ [sampleRecord] ∧
      st2.tweetsAttempted = [] ++ ["https://github.com/a/b"] ∧
      st2.tweetsSucceeded = [] ++ ["https://github.com/a/b"]) :=
  ⟨(C4_insert_only_after_post
      { baseEnv with repositories := ["https://github.com/a/b"],
                     tweetOutcome := fun _ _ => .failure }
      [] ⟨[], [], [], []⟩ [] "https://github.com/a/b" [] "a" "b" sampleRecord
      { snapshot := [sampleRecord], accumulated := [sampleRecord],
        finalRows := [], tweetsAttempted := ["https://github.com/a/b"],
        tweetsSucceeded := [] }
      (by decide) (by decide) (by decide) (by decide) (by decide) (by decide)
      (by decide)).1 (by decide),
   (C4_insert_only_after_post { baseEnv with repositories := ["https://github.com/a/b"] }
      [] ⟨[], [], [], []⟩ [] "https://github.com/a/b" [] "a" "b" sampleRecord
      { snapshot := [sampleRecord], accumulated := [sampleRecord],
        finalRows := [("https://github.com/a/b", "0")],
        tweetsAttempted := ["https://github.com/a/b"],
        tweetsSucceeded := ["https://github.com/a/b"] }
      (by decide) (by decide) (by decide) (by decide) (by decide) (by decide)
      (by decide)).2 (by decide)⟩

/-- With no `GITHUB_ACCESS_TOKEN` in the environment, the loop dies with the
`AssertionError` at the first parseable URL (unparseable ones are skipped). -/
theorem runLoop_noToken (env : Env) (htok : env.deps.githubToken = none) :
    ∀ (l : List String) (idx : Nat) (st : LoopState),
      (∃ u ∈ l, (parse_github_url u).isSome) →
      runLoop env idx st l = .error .assertionNoToken := by
  intro l
  induction l with
  | nil =>
    rintro idx st ⟨u, hu, -⟩
    exact absurd hu (List.not_mem_nil u)
  | cons u l ih =>
    rintro idx st ⟨v, hv, hps⟩
    cases hp : parse_github_url u with
    | some pr =>
      obtain ⟨o, n⟩ := pr
      exact runLoop_cons_error env idx st u l _ (processUrl_error env idx st u o n _ hp
        (get_repository_info_noToken env.deps o n htok))
    | none =>
      rw [runLoop_cons_ok env idx st u l st (processUrl_skip_unparsed env idx st u hp)]
      apply ih
      rcases List.mem_cons.mp hv with h | h
      · subst h; rw [hp] at hps; exact absurd hps (by simp)
      · exact ⟨v, h, hps⟩

/-- An environment whose GitHub credential is absent. -/
def envNoToken : Env := { baseEnv with deps := { sampleDeps with githubToken := none } }

/-- C5 counterexample: with `GITHUB_ACCESS_TOKEN` missing but an empty
configured URL list, the run does NOT abort: it completes successfully and
writes an (empty) snapshot — the credential is only checked lazily inside
`get_repository_info`, not at startup, contradicting the claim that a
missing required environment credential always aborts the run before any
output with an error. -/
theorem C5_counterexample :
    envNoToken.deps.githubToken = none ∧ envNoToken.configExists = true ∧
    runPipeline envNoToken =
      .ok { snapshot := [], accumulated := [], finalRows := [],
            tweetsAttempted := [], tweetsSucceeded := [] } := by
  decide

/-- C5 amended: a missing configuration file and a store-initialization
failure abort the run at startup, before anything is produced; a missing
`GITHUB_ACCESS_TOKEN` aborts the run (no snapshot, no announcement) as soon
as some parseable URL is processed — but if no configured URL parses, the
run completes despite the missing credential. -/
theorem C5_amended :
    (∀ env : Env, env.configExists = false → runPipeline env = .error .configMissing) ∧
    (∀ (env : Env) (u : Unit), env.configExists = true → env.storeInit = .error u →
      runPipeline env = .error .storeInitFailed) ∧
    (∀ (env : Env) (rows0 : List TweetRow), env.configExists = true →
      env.storeInit = .ok rows0 → env.deps.githubToken = none →
      (∃ u ∈ env.repositories, (parse_github_url u).isSome) →
      runPipeline env = .error .assertionNoToken) := by
  refine ⟨?_, ?_, ?_⟩
  · intro env hc
    rw [runPipeline, if_neg (by rw [hc]; exact Bool.false_ne_true)]
  · intro env u hc hs
    rw [runPipeline, if_pos hc, hs]
  · intro env rows0 hc hs htok hex
    rw [runPipeline, if_pos hc, hs]
    dsimp only
    rw [runLoop_noToken env htok env.repositories 0 ⟨[], rows0, [], []⟩ hex]

theorem C5_amended_witness :
    runPipeline { baseEnv with configExists := false } = .error .configMissing ∧
    runPipeline { baseEnv with storeInit := .error () } = .error .storeInitFailed ∧
    runPipeline { envNoToken with
      repositories := ["not a url", "https://github.com/a/b"] } =
      .error .assertionNoToken :=
  ⟨C5_amended.1 _ (by decide),
   C5_amended.2.1 _ () (by decide) (by decide),
   C5_amended.2.2 _ [] (by decide) (by decide) (by decide)
     ⟨"https://github.com/a/b", by decide, by decide⟩⟩

/-! ### Evaluating the parser on well-formed URLs -/

theorem matchAt_prefix_hit (s c : Char) (X : List Char)
    (hs : isSchemeClassChar s = true) (hc : c ≠ '\n') :
    matchAt (s :: (ghPre ++ c :: (ghPost ++ X))) = matchTail X := by
  have hsg : (s == 'g') = false := by
    cases heq : s == 'g'
    · rfl
    · rw [eq_of_beq heq] at hs
      exact absurd hs (by decide)
  have h1 : matchAtPrefixed (s :: (ghPre ++ c :: (ghPost ++ X))) = matchTail X := by
    simp only [matchAtPrefixed]
    rw [if_pos hs, matchGH_append c X hc]
    rfl
  unfold matchAt
  rw [h1]
  cases hmt : matchTail X with
  | some v => rfl
  | none =>
    show (matchGH (s :: (ghPre ++ c :: (ghPost ++ X)))).bind matchTail = none
    have hnone : matchGH (s :: (ghPre ++ c :: (ghPost ++ X))) = none := by
      unfold matchGH
      rw [show (ghPre : List Char) = 'g' :: "ithub".toList from rfl]
      simp [matchLit, hsg]
    rw [hnone]
    rfl

theorem searchGH_skip (x : Char) (rest : List Char) (h : matchAt (x :: rest) = none) :
    searchGH (x :: rest) = searchGH rest := by
  rw [searchGH_cons, h]

theorem searchGH_site_hit (c : Char) (X : List Char) (v : List Char × List Char)
    (hc : c ≠ '\n') (h : matchTail X = some v) :
    searchGH (ghPre ++ c :: (ghPost ++ X)) = some v := by
  rw [show (ghPre ++ c :: (ghPost ++ X) : List Char) =
      'g' :: ("ithub".toList ++ c :: (ghPost ++ X)) from rfl,
    searchGH_cons,
    show ('g' : Char) :: ("ithub".toList ++ c :: (ghPost ++ X)) =
      ghPre ++ c :: (ghPost ++ X) from rfl,
    matchAt_site c X hc, h]

theorem searchGH_prefix_hit (s c : Char) (X : List Char) (v : List Char × List Char)
    (hs : isSchemeClassChar s = true) (hc : c ≠ '\n') (h : matchTail X = some v) :
    searchGH (s :: (ghPre ++ c :: (ghPost ++ X))) = some v := by
  rw [searchGH_cons, matchAt_prefix_hit s c X hs hc, h]

theorem searchGH_http (c : Char) (X : List Char) (v : List Char × List Char)
    (hc : c ≠ '\n') (h : matchTail X = some v) :
    searchGH ('h' :: 't' :: 't' :: 'p' :: ':' :: '/' :: '/' ::
      (ghPre ++ c :: (ghPost ++ X))) = some v := by
  rw [searchGH_skip _ _
    (by simp [matchAt, matchAtPrefixed, matchGH, matchLit, ghPre, ghPost, isSchemeClassChar])]
  rw [searchGH_skip _ _
    (by simp [matchAt, matchAtPrefixed, matchGH, matchLit, ghPre, ghPost, isSchemeClassChar])]
  rw [searchGH_skip _ _
    (by simp [matchAt, matchAtPrefixed, matchGH, matchLit, ghPre, ghPost, isSchemeClassChar])]
  rw [searchGH_skip _ _
    (by simp [matchAt, matchAtPrefixed, matchGH, matchLit, ghPre, ghPost, isSchemeClassChar])]
  rw [searchGH_skip _ _
    (by simp [matchAt, matchAtPrefixed, matchGH, matchLit, ghPre, ghPost, isSchemeClassChar])]
  rw [searchGH_skip _ _
    (by simp [matchAt, matchAtPrefixed, matchGH, matchLit, ghPre, ghPost, isSchemeClassChar])]
  exact searchGH_prefix_hit '/' c X v (by decide) hc h

theorem searchGH_https (c : Char) (X : List Char) (v : List Char × List Char)
    (hc : c ≠ '\n') (h : matchTail X = some v) :
    searchGH ('h' :: 't' :: 't' :: 'p' :: 's' :: ':' :: '/' :: '/' ::
      (ghPre ++ c :: (ghPost ++ X))) = some v := by
  rw [searchGH_skip _ _
    (by simp [matchAt, matchAtPrefixed, matchGH, matchLit, ghPre, ghPost, isSchemeClassChar])]
  rw [searchGH_skip _ _
    (by simp [matchAt, matchAtPrefixed, matchGH, matchLit, ghPre, ghPost, isSchemeClassChar])]
  rw [searchGH_skip _ _
    (by simp [matchAt, matchAtPrefixed, matchGH, matchLit, ghPre, ghPost, isSchemeClassChar])]
  rw [searchGH_skip _ _
    (by simp [matchAt, matchAtPrefixed, matchGH, matchLit, ghPre, ghPost, isSchemeClassChar])]
  rw [searchGH_skip _ _
    (by simp [matchAt, matchAtPrefixed, matchGH, matchLit, ghPre, ghPost, isSchemeClassChar])]
  rw [searchGH_skip _ _
    (by simp [matchAt, matchAtPrefixed, matchGH, matchLit, ghPre, ghPost, isSchemeClassChar])]
  rw [searchGH_skip _ _
    (by simp [matchAt, matchAtPrefixed, matchGH, matchLit, ghPre, ghPost, isSchemeClassChar])]
  exact searchGH_prefix_hit '/' c X v (by decide) hc h

theorem parse_github_url_mk (l : List Char) :
    parse_github_url (String.mk l) =
      (searchGH l).map (fun p => (String.mk p.1, String.mk p.2)) := rfl

/-- C6 counterexample: `gitlab.com/foo/bar` is a well-formed host-qualified
repository path, yet the parser returns the empty result; conversely a
string that is NOT of the form `host/owner/name` — free text around a
github.com path — parses successfully.  Both directions of the claimed
equivalence fail. -/
theorem C6_counterexample :
    parse_github_url "https://gitlab.com/foo/bar" = none ∧
    parse_github_url "see github.com/foo/bar for details" = some ("foo", "bar") := by
  decide

/-- C6 amended: the host match is `github`, one arbitrary non-newline
character (the dot of `github.com` is an unescaped metacharacter), `com/`;
so in particular every `github.com/` URL — scheme one of nothing, `http://`,
`https://`, owner and name non-empty word/dot/dash runs, optional trailing
slash — parses to exactly the case-preserved (owner, name).  Matching is
substring search, not whole-string shape; any string that does not contain a
`github(any)com/` site yields the empty result; the function is total
(failure is an absent value, never an exception). -/
theorem C6_amended :
    (∀ own nm : List Char, own ≠ [] → nm ≠ [] →
      (∀ c ∈ own, isWordDotDash c = true) → (∀ c ∈ nm, isWordDotDash c = true) →
      ∀ sch ∈ [[], "http://".toList, "https://".toList], ∀ tr ∈ [[], ['/']],
        parse_github_url (String.mk (sch ++ "github.com/".toList ++ own ++
            '/' :: (nm ++ tr))) =
          some (String.mk own, String.mk nm)) ∧
    (∀ s : String, hasGHSite s.data = false → parse_github_url s = none) := by
  constructor
  · intro own nm hown hnm ho hn sch hsch tr htr2
    simp only [List.mem_cons, List.not_mem_nil, or_false] at hsch htr2
    have htr : ∀ c, tr.head? = some c → isWordDotDash c = false := by
      rcases htr2 with rfl | rfl
      · intro c hc; exact absurd hc (by simp)
      · intro c hc
        simp only [List.head?_cons, Option.some.injEq] at hc
        rw [← hc]
        decide
    have hX : matchTail (own ++ '/' :: (nm ++ tr)) = some (own, nm) :=
      matchTail_exact own nm tr hown hnm ho hn htr
    rw [parse_github_url_mk]
    rcases hsch with rfl | rfl | rfl
    · rw [show ([] ++ "github.com/".toList ++ own ++ '/' :: (nm ++ tr) : List Char) =
          ghPre ++ '.' :: (ghPost ++ (own ++ '/' :: (nm ++ tr))) from rfl,
        searchGH_site_hit '.' _ _ (by decide) hX]
      rfl
    · rw [show ("http://".toList ++ "github.com/".toList ++ own ++
            '/' :: (nm ++ tr) : List Char) =
          'h' :: 't' :: 't' :: 'p' :: ':' :: '/' :: '/' ::
            (ghPre ++ '.' :: (ghPost ++ (own ++ '/' :: (nm ++ tr)))) from rfl,
        searchGH_http '.' _ _ (by decide) hX]
      rfl
    · rw [show ("https://".toList ++ "github.com/".toList ++ own ++
            '/' :: (nm ++ tr) : List Char) =
          'h' :: 't' :: 't' :: 'p' :: 's' :: ':' :: '/' :: '/' ::
            (ghPre ++ '.' :: (ghPost ++ (own ++ '/' :: (nm ++ tr)))) from rfl,
        searchGH_https '.' _ _ (by decide) hX]
      rfl
  · intro s h0
    cases hsg : searchGH s.data with
    | none => unfold parse_github_url; rw [hsg]; rfl
    | some v =>
      have hsite := hasGHSite_of_searchGH s.data (by rw [hsg]; rfl)
      rw [h0] at hsite
      exact absurd hsite (by decide)

theorem C6_amended_witness :
    parse_github_url (String.mk ("https://".toList ++ "github.com/".toList ++
      ['f','o','o'] ++ '/' :: (['b','a','r'] ++ []))) =
      some (String.mk ['f','o','o'], String.mk ['b','a','r']) ∧
    parse_github_url "not a url" = none :=
  ⟨C6_amended.1 ['f','o','o'] ['b','a','r'] (by decide) (by decide) (by decide) (by decide)
     "https://".toList (by decide) [] (by decide),
   C6_amended.2 "not a url" (by decide)⟩

/-- C7: the issue list of a produced record is exactly the list returned by
the tracker for the fixed query — labels ["good first issue"], state "open",
number 10, sorted by creation descending — mapped field by field (title,
html url, number, isoformat of created_at) in the same order; when the
client honours the requested limit the record carries at most 10 issues. -/
theorem C7_issue_list_shape (deps : GetRepoDeps) (o n tok : String) (meta : RepoMeta)
    (htok : deps.githubToken = some tok)
    (hrep : deps.repository o n = .found meta)
    (hne : deps.issues o n gfiQuery ≠ [])
    (hlim : (deps.issues o n gfiQuery).length ≤ ISSUE_LIMIT) :
    gfiQuery = { labels := ["good first issue"], state := "open", number := 10,
                 sort := "created", direction := "desc" } ∧
    ∃ r, get_repository_info deps o n = .ok (some r) ∧
      r.issues = (deps.issues o n gfiQuery).map (fun i =>
        { title := i.title, url := i.html_url, number := i.number,
          created_at := deps.isoformat i.created_at }) ∧
      r.issues.length ≤ 10 := by
  refine ⟨rfl, repoRecordOf deps o n meta,
    get_repository_info_found deps o n tok meta htok hrep hne, rfl, ?_⟩
  simpa [repoRecordOf] using hlim

theorem C7_witness :
    gfiQuery = { labels := ["good first issue"], state := "open", number := 10,
                 sort := "created", direction := "desc" } ∧
    ∃ r, get_repository_info sampleDeps "a" "b" = .ok (some r) ∧
      r.issues = (sampleDeps.issues "a" "b" gfiQuery).map (fun i =>
        { title := i.title, url := i.html_url, number := i.number,
          created_at := sampleDeps.isoformat i.created_at }) ∧
      r.issues.length ≤ 10 :=
  C7_issue_list_shape sampleDeps "a" "b" "token" sampleMeta
    (by decide) (by decide) (by decide) (by decide)

/-- C8: the snapshot written by a completed run is exactly the Fisher-Yates
shuffle (`random.shuffle`) of the accumulated `REPOSITORIES` list, hence a
permutation of it — the same multiset of records, only reordered.  The
snapshot is a function of this run's records alone (the model gives
`runPipeline` no access to any previous artifact, mirroring the
`open(..., 'w')` full overwrite). -/
theorem C8_snapshot_perm (env : Env) (res : RunResult) (h : runPipeline env = .ok res) :
    res.snapshot = shuffleRepos env.rand res.accumulated ∧
    res.snapshot.Perm res.accumulated := by
  obtain ⟨rows0, st, -, -, -, hres⟩ := runPipeline_ok_elim env res h
  subst hres
  exact ⟨rfl, shuffleRepos_perm _ _⟩

/-- The record the sample world produces for owner/name (c, d). -/
def sampleRecordCD : RepoInfo := repoRecordOf sampleDeps "c" "d" sampleMeta

theorem C8_witness :
    ({ snapshot := [sampleRecordCD, sampleRecord]
       accumulated := [sampleRecord, sampleRecordCD]
       finalRows := [("https://github.com/a/b", "0"), ("https://github.com/c/d", "1")]
       tweetsAttempted := ["https://github.com/a/b", "https://github.com/c/d"]
       tweetsSucceeded := ["https://github.com/a/b", "https://github.com/c/d"] } :
        RunResult).snapshot =
      shuffleRepos
        ({ baseEnv with
            repositories := ["https://github.com/a/b", "https://github.com/c/d"] }).rand
        [sampleRecord, sampleRecordCD] ∧
    ([sampleRecordCD, sampleRecord] : List RepoInfo).Perm [sampleRecord, sampleRecordCD] :=
  C8_snapshot_perm
    { baseEnv with repositories := ["https://github.com/a/b", "https://github.com/c/d"] }
    { snapshot := [sampleRecordCD, sampleRecord]
      accumulated := [sampleRecord, sampleRecordCD]
      finalRows := [("https://github.com/a/b", "0"), ("https://github.com/c/d", "1")]
      tweetsAttempted := ["https://github.com/a/b", "https://github.com/c/d"]
      tweetsSucceeded := ["https://github.com/a/b", "https://github.com/c/d"] }
    (by decide)

/-- C9 counterexample: the pattern's dot is UNESCAPED, so `github0com/a/b`
— which does not contain the substring `github.com/` at all — nevertheless
parses successfully to (a, b): "succeeds exactly when the string contains
the substring github.com/<owner>/<name>" is false of the program. -/
theorem C9_counterexample :
    parse_github_url "github0com/a/b" = some ("a", "b") ∧
    ¬ ("github.com/".toList <:+: "github0com/a/b".data) := by
  decide

/-- C9 amended: with the unescaped dot read as the any-character
metacharacter, `parse_github_url` succeeds exactly when the string contains
`github`, one arbitrary non-newline character, `com/`, a non-empty
word/dot/dash owner run, a slash and a non-empty name run, anywhere within
it — no scheme required, arbitrary text around the occurrence — and the
examples (including a wildcard-dot one) parse to the owner and name of the
first such occurrence. -/
theorem C9_amended :
    (∀ s : String, (parse_github_url s).isSome = true ↔ GHOcc s.data) ∧
    parse_github_url "see github.com/foo/bar for details" = some ("foo", "bar") ∧
    parse_github_url "evil-github.com/x/y" = some ("x", "y") ∧
    parse_github_url "github0com/a/b" = some ("a", "b") ∧
    parse_github_url "github.com/a/b github.com/c/d" = some ("a", "b") := by
  refine ⟨?_, by decide, by decide, by decide, by decide⟩
  intro s
  have hmap : (parse_github_url s).isSome = (searchGH s.data).isSome := by
    unfold parse_github_url
    cases searchGH s.data <;> rfl
  rw [hmap]
  exact searchGH_isSome_iff s.data

theorem C9_witness : (parse_github_url "github.com/a/b").isSome = true :=
  (C9_amended.1 "github.com/a/b").mpr
    ⟨[], '.', ['a'], ['b'], [], by decide, by decide, by decide, by decide,
      by decide, by decide⟩

/-- C10: with the same repository listed twice and qualifying both times, the
snapshot keeps one record per occurrence (the duplicate is not removed), the
post is attempted and the store row inserted only for the first occurrence,
and — in any run whatsoever — each announcement key is successfully posted
at most once. -/
theorem C10_dup_urls_one_tweet (env : Env) (rows0 : List TweetRow) (u1 u2 o n : String)
    (d : RepoInfo) (res : RunResult)
    (hc : env.configExists = true) (hs : env.storeInit = .ok rows0)
    (hrep : env.repositories = [u1, u2])
    (hp1 : parse_github_url u1 = some (o, n))
    (hp2 : parse_github_url u2 = some (o, n))
    (hg : get_repository_info env.deps o n = .ok (some d))
    (hfresh : is_repo_tweeted rows0 (env.repoUrl o n) = false)
    (htw : env.tweetOutcome o n = .success)
    (hrun : runPipeline env = .ok res) :
    res.accumulated = [d, d] ∧
    res.snapshot.count d = 2 ∧
    res.tweetsAttempted = [env.repoUrl o n] ∧
    res.tweetsSucceeded = [env.repoUrl o n] ∧
    res.finalRows = rows0 ++ [(env.repoUrl o n, env.timestamp 0)] ∧
    (∀ (env2 : Env) (res2 : RunResult), runPipeline env2 = .ok res2 →
      ∀ k, res2.tweetsSucceeded.count k ≤ 1) := by
  obtain ⟨rows0b, stf, -, hsb, hloop, hres⟩ := runPipeline_ok_elim env res hrun
  rw [hs] at hsb
  injection hsb with hsb
  subst hsb
  rw [hrep] at hloop
  have hstep1 := processUrl_fresh_success env 0 ⟨[], rows0, [], []⟩ u1 o n d hp1 hg hfresh htw
  rw [runLoop_cons_ok env 0 _ u1 [u2] _ hstep1] at hloop
  have hloop2 : runLoop env (0 + 1)
      ⟨[d], rows0 ++ [(env.repoUrl o n, env.timestamp 0)],
       [env.repoUrl o n], [env.repoUrl o n]⟩ [u2] = .ok stf := hloop
  have ht2 : is_repo_tweeted (rows0 ++ [(env.repoUrl o n, env.timestamp 0)])
      (env.repoUrl o n) = true := is_repo_tweeted_last rows0 _ _
  have hstep2 := processUrl_tweeted env (0 + 1)
    ⟨[d], rows0 ++ [(env.repoUrl o n, env.timestamp 0)],
     [env.repoUrl o n], [env.repoUrl o n]⟩ u2 o n d hp2 hg ht2
  rw [runLoop_cons_ok env (0 + 1) _ u2 [] _ hstep2, runLoop_nil] at hloop2
  injection hloop2 with hloop2
  subst hloop2
  subst hres
  refine ⟨by simp, ?_, by simp, by simp, by simp, ?_⟩
  · rw [(shuffleRepos_perm env.rand _).count_eq]
    simp
  · intro env2 res2 h2 k
    obtain ⟨r0, st, -, -, hl, hres2⟩ := runPipeline_ok_elim env2 res2 h2
    subst hres2
    have hinv := runLoop_dedupInv env2 env2.repositories 0 ⟨[], r0, [], []⟩ st hl
      ⟨List.nodup_nil, by intro k2 hk2; exact absurd hk2 (List.not_mem_nil k2)⟩
    exact List.nodup_iff_count_le_one.mp hinv.1 k

theorem C10_witness :
    ([sampleRecord, sampleRecord] : List RepoInfo) = [sampleRecord, sampleRecord] ∧
    ([sampleRecord, sampleRecord] : List RepoInfo).count sampleRecord = 2 ∧
    (["https://github.com/a/b"] : List String) = ["https://github.com/a/b"] ∧
    (["https://github.com/a/b"] : List String) = ["https://github.com/a/b"] ∧
    ([("https://github.com/a/b", "0")] : List TweetRow) =
      [] ++ [("https://github.com/a/b", "0")] ∧
    (∀ (env2 : Env) (res2 : RunResult), runPipeline env2 = .ok res2 →
      ∀ k, res2.tweetsSucceeded.count k ≤ 1) := by
  have h := C10_dup_urls_one_tweet
    { baseEnv with repositories := ["https://github.com/a/b", "github.com/a/b/"] }
    [] "https://github.com/a/b" "github.com/a/b/" "a" "b" sampleRecord
    { snapshot := [sampleRecord, sampleRecord]
      accumulated := [sampleRecord, sampleRecord]
      finalRows := [("https://github.com/a/b", "0")]
      tweetsAttempted := ["https://github.com/a/b"]
      tweetsSucceeded := ["https://github.com/a/b"] }
    (by decide) (by decide) (by decide) (by decide) (by decide) (by decide)
    (by decide) (by decide) (by decide)
  exact h

end GFI
